import Mathlib

/-!
# Verification of the metadata-embedding and media-preprocessing engine

Shallow embedding of the format-specific metadata injectors (JPEG, PNG,
SVG, EPS, video), the CRC32 engine, the XMP packet generator and the
image-preprocessing branch logic of the engine, together with proofs of
the behavioural properties stated in the specification.

Byte buffers are modelled as `List Nat` (each element a byte value),
strings as Lean `String`/`List Char`, and machine arithmetic as `Nat`
with explicit `% 2 ^ w` where the code truncates.
-/

namespace VisionMeta

/-- The metadata record (`StockMetadata` in `types.ts`): title,
description and an ordered keyword list. -/
structure StockMetadata where
  title : String
  description : String
  keywords : List String
deriving DecidableEq

/-! ## UTF-8 encoding (model of `TextEncoder.encode`) -/

/-- UTF-8 encoding of a single code point, by the standard four-range
case split.  Models what `TextEncoder` emits for each code point. -/
def utf8EncodeCharNat (c : Nat) : List Nat :=
  if c < 0x80 then [c]
  else if c < 0x800 then [0xC0 + c / 64, 0x80 + c % 64]
  else if c < 0x10000 then
    [0xE0 + c / 4096, 0x80 + c / 64 % 64, 0x80 + c % 64]
  else
    [0xF0 + c / 262144, 0x80 + c / 4096 % 64, 0x80 + c / 64 % 64, 0x80 + c % 64]

/-- Model of `new TextEncoder().encode(s)`: the UTF-8 bytes of `s`. -/
def utf8Encode (s : String) : List Nat :=
  (s.data.map (fun c => utf8EncodeCharNat c.toNat)).flatten

/-- Model of `s.charCodeAt(i)` applied position-wise: the UTF-16 code
units of a BMP string (used by the EPS injector's `findBinarySequence`
to turn its ASCII pattern strings into byte sequences). -/
def strCodeUnits (s : String) : List Nat :=
  s.data.map Char.toNat

/-! ## Big-endian fields -/

/-- The four bytes written by `DataView.setUint32(_, n, false)`
(big-endian, value truncated to 32 bits). -/
def u32be (n : Nat) : List Nat :=
  [n / 2 ^ 24 % 256, n / 2 ^ 16 % 256, n / 2 ^ 8 % 256, n % 256]

/-- Big-endian integer value of a byte list. -/
def readBE (l : List Nat) : Nat :=
  l.foldl (fun a b => a * 256 + b) 0

theorem length_u32be (n : Nat) : (u32be n).length = 4 := rfl

theorem readBE_u32be {n : Nat} (h : n < 2 ^ 32) : readBE (u32be n) = n := by
  simp only [u32be, readBE, List.foldl]
  omega

/-! ## CRC32 engine (`makeCRCTable` / `crc32`) -/

/-- One inner-loop step of `makeCRCTable`:
`c = (c & 1) ? (0xEDB88320 ^ (c >>> 1)) : (c >>> 1)`. -/
def crcStep (c : Nat) : Nat :=
  if c % 2 = 1 then 0xEDB88320 ^^^ c / 2 else c / 2

/-- A single entry of the CRC table: eight `crcStep` iterations on `n`. -/
def crcTableEntry (n : Nat) : Nat :=
  crcStep^[8] n

/-- The 256-entry reflected CRC-32 lookup table built by `makeCRCTable`. -/
def crcTable : List Nat :=
  (List.range 256).map crcTableEntry

/-- `crc32(buf)`: table-driven reflected CRC-32, initial value
`0 ^ (-1)` (all ones on the unsigned 32-bit view), final xor with all
ones, exactly as in the source. -/
def crc32 (buf : List Nat) : Nat :=
  (buf.foldl (fun crc b => crc / 256 ^^^ crcTable.getD ((crc ^^^ b) % 256) 0)
    0xFFFFFFFF) ^^^ 0xFFFFFFFF

theorem crcStep_lt {c : Nat} (h : c < 2 ^ 32) : crcStep c < 2 ^ 32 := by
  unfold crcStep
  split
  · exact Nat.xor_lt_two_pow (by norm_num) (by omega)
  · omega

theorem crcTableEntry_lt {n : Nat} (h : n < 2 ^ 32) : crcTableEntry n < 2 ^ 32 := by
  unfold crcTableEntry
  have : ∀ k c, c < 2 ^ 32 → crcStep^[k] c < 2 ^ 32 := by
    intro k
    induction k with
    | zero => intro c hc; simpa using hc
    | succ k ih =>
      intro c hc
      rw [Function.iterate_succ_apply]
      exact ih _ (crcStep_lt hc)
  exact this 8 n h

theorem crcTable_getD_lt (i : Nat) : crcTable.getD i 0 < 2 ^ 32 := by
  unfold List.getD
  cases h : crcTable.get? i with
  | none => simp
  | some x =>
    have hx : x ∈ crcTable := List.get?_mem h
    simp only [crcTable, List.mem_map, List.mem_range] at hx
    obtain ⟨n, hn, rfl⟩ := hx
    simp only [Option.getD_some]
    exact crcTableEntry_lt (by omega)

theorem crc32_lt (buf : List Nat) : crc32 buf < 2 ^ 32 := by
  unfold crc32
  have : ∀ (l : List Nat) (a : Nat), a < 2 ^ 32 →
      l.foldl (fun crc b => crc / 256 ^^^ crcTable.getD ((crc ^^^ b) % 256) 0) a < 2 ^ 32 := by
    intro l
    induction l with
    | nil => intro a ha; simpa using ha
    | cons x xs ih =>
      intro a ha
      refine ih _ ?_
      exact Nat.xor_lt_two_pow (by omega) (crcTable_getD_lt _)
  exact Nat.xor_lt_two_pow (this buf 0xFFFFFFFF (by norm_num)) (by norm_num)

/-! ## XMP packet generator (`generateXmpPacket`) -/

/-- First escape pass of `sanitize`: `str.replace(/&/g, '&amp;')`,
expressed per character (the pattern is a single character, so the
global regex replacement is exactly a character-wise expansion). -/
def escAmp (c : Char) : List Char :=
  if c = '&' then "&amp;".data else [c]

/-- Second escape pass of `sanitize`: `replace(/</g, '&lt;')`. -/
def escLt (c : Char) : List Char :=
  if c = '<' then "&lt;".data else [c]

/-- Third escape pass of `sanitize`: `replace(/>/g, '&gt;')`. -/
def escGt (c : Char) : List Char :=
  if c = '>' then "&gt;".data else [c]

/-- The three sequential escape passes of `sanitize`, on character
lists: `&` first, then `<`, then `>`. -/
def sanitizeChars (s : List Char) : List Char :=
  (((s.map escAmp).flatten.map escLt).flatten.map escGt).flatten

/-- `sanitize` from `generateXmpPacket`:
`str.replace(/&/g, '&amp;').replace(/</g, '&lt;').replace(/>/g, '&gt;')`. -/
def sanitize (s : String) : String :=
  String.mk (sanitizeChars s.data)

/-- `generateXmpPacket(metadata, mimeType)`: the XMP packet template
with the mime type and the sanitized title, description and keywords
interpolated. -/
def generateXmpPacket (metadata : StockMetadata) (mimeType : String) : String :=
  "<?xpacket begin=\"\uFEFF\" id=\"W5M0MpCehiHzreSzNTczkc9d\"?>\n" ++
  "<x:xmpmeta xmlns:x=\"adobe:ns:meta/\" x:xmptk=\"VisionMeta AI Tagger\">\n" ++
  "  <rdf:RDF xmlns:rdf=\"http://www.w3.org/1999/02/22-rdf-syntax-ns#\">\n" ++
  "    <rdf:Description rdf:about=\"\"\n" ++
  "        xmlns:dc=\"http://purl.org/dc/elements/1.1/\"\n" ++
  "        xmlns:photoshop=\"http://ns.adobe.com/photoshop/1.0/\"\n" ++
  "        xmlns:Iptc4xmpCore=\"http://iptc.org/std/Iptc4xmpCore/1.0/xmlns/\">\n" ++
  "      <dc:format>" ++ mimeType ++ "</dc:format>\n" ++
  "      <dc:title>\n" ++
  "        <rdf:Alt>\n" ++
  "          <rdf:li xml:lang=\"x-default\">" ++ sanitize metadata.title ++ "</rdf:li>\n" ++
  "        </rdf:Alt>\n" ++
  "      </dc:title>\n" ++
  "      <dc:description>\n" ++
  "        <rdf:Alt>\n" ++
  "          <rdf:li xml:lang=\"x-default\">" ++ sanitize metadata.description ++ "</rdf:li>\n" ++
  "        </rdf:Alt>\n" ++
  "      </dc:description>\n" ++
  "      <dc:subject>\n" ++
  "        <rdf:Bag>\n" ++
  "          " ++
  String.intercalate "\n          "
    (metadata.keywords.map (fun kw => "<rdf:li>" ++ sanitize kw ++ "</rdf:li>")) ++
  "\n" ++
  "        </rdf:Bag>\n" ++
  "      </dc:subject>\n" ++
  "      <photoshop:Headline>" ++ sanitize metadata.title ++ "</photoshop:Headline>\n" ++
  "    </rdf:Description>\n" ++
  "  </rdf:RDF>\n" ++
  "</x:xmpmeta>\n" ++
  "<?xpacket end=\"w\"?>"

/-! ## PNG injector (`embedMetadataInPng`) -/

/-- The iTXt keyword bytes: `TextEncoder.encode("XML:com.adobe.xmp")`. -/
def pngKeywordBytes : List Nat := utf8Encode "XML:com.adobe.xmp"

/-- The iTXt chunk data: keyword, NUL separator, compression flag 0,
compression method 0, empty language tag + NUL, empty translated
keyword + NUL (five zero bytes in total), then the UTF-8 XMP bytes. -/
def pngChunkData (m : StockMetadata) : List Nat :=
  pngKeywordBytes ++ [0, 0, 0, 0, 0] ++ utf8Encode (generateXmpPacket m "image/png")

/-- The chunk type bytes: `TextEncoder.encode("iTXt")`. -/
def pngTypeBytes : List Nat := utf8Encode "iTXt"

/-- The chunk CRC: `crc32` over type bytes followed by chunk data. -/
def pngCrc (m : StockMetadata) : Nat := crc32 (pngTypeBytes ++ pngChunkData m)

/-- The full iTXt chunk: 4-byte big-endian data length, 4 type bytes,
the data, then the 4-byte big-endian CRC. -/
def pngFullChunk (m : StockMetadata) : List Nat :=
  u32be (pngChunkData m).length ++ pngTypeBytes ++ pngChunkData m ++ u32be (pngCrc m)

/-- `embedMetadataInPng` on the file's bytes.  Pass-through (`some
input`) when the two leading signature bytes are not `0x89 0x50`;
otherwise the chunk is spliced at fixed offset 33.  When the input is
shorter than 33 bytes, `newPngBuffer.set(fullChunk, 33)` overflows the
target buffer, so `TypedArray.set` throws a `RangeError` inside the
`FileReader.onload` handler, which has no try/catch: the promise never
settles.  That outcome is modelled as `none`. -/
def embedMetadataInPng (input : List Nat) (m : StockMetadata) : Option (List Nat) :=
  if input.get? 0 = some 0x89 ∧ input.get? 1 = some 0x50 then
    if 33 ≤ input.length then
      some (input.take 33 ++ pngFullChunk m ++ input.drop 33)
    else
      none
  else
    some input

theorem pngTypeBytes_length : pngTypeBytes.length = 4 := rfl

theorem pngFullChunk_length (m : StockMetadata) :
    (pngFullChunk m).length = 4 + 4 + (pngChunkData m).length + 4 := by
  simp [pngFullChunk, u32be, pngTypeBytes_length]
  omega

/-- `(l₁ ++ l₂).take n = l₁` when `n` is the length of `l₁`. -/
theorem take_append_of_length {α : Type} {l₁ l₂ : List α} {n : Nat}
    (h : l₁.length = n) : (l₁ ++ l₂).take n = l₁ := by
  subst h
  exact List.take_left l₁ l₂

/-- `(l₁ ++ l₂).drop n = l₂` when `n` is the length of `l₁`. -/
theorem drop_append_of_length {α : Type} {l₁ l₂ : List α} {n : Nat}
    (h : l₁.length = n) : (l₁ ++ l₂).drop n = l₂ := by
  subst h
  exact List.drop_left l₁ l₂

/-- A small concrete metadata record, used to instantiate theorems. -/
def sampleMetadata : StockMetadata :=
  { title := "t", description := "d", keywords := ["k"] }

/-- C1 (amended): for every input whose first two bytes are `0x89 0x50`,
whose length is at least 33 and whose iTXt chunk data fits the 4-byte
length field, the PNG injector returns a buffer of length
`input + 4 + 4 + dataLen + 4`; the chunk sits at byte offset 33, its
big-endian length field reads back as `dataLen`, and its trailing
big-endian CRC field reads back as the CRC32 of type bytes ++ data. -/
theorem png_itxt_chunk_layout (input : List Nat) (m : StockMetadata)
    (h0 : input.get? 0 = some 0x89) (h1 : input.get? 1 = some 0x50)
    (h33 : 33 ≤ input.length)
    (hfit : (pngChunkData m).length < 2 ^ 32) :
    ∃ out, embedMetadataInPng input m = some out ∧
      out.length = input.length + (4 + 4 + (pngChunkData m).length + 4) ∧
      out.take 33 = input.take 33 ∧
      out.drop (33 + (pngFullChunk m).length) = input.drop 33 ∧
      (out.drop 33).take (pngFullChunk m).length = pngFullChunk m ∧
      readBE ((out.drop 33).take 4) = (pngChunkData m).length ∧
      readBE (((out.drop 33).drop (4 + 4 + (pngChunkData m).length)).take 4) =
        crc32 (pngTypeBytes ++ pngChunkData m) := by
  have hout : embedMetadataInPng input m =
      some (input.take 33 ++ (pngFullChunk m ++ input.drop 33)) := by
    unfold embedMetadataInPng
    rw [if_pos (And.intro h0 h1), if_pos h33, List.append_assoc]
  have htl : (input.take 33).length = 33 := by
    rw [List.length_take]
    omega
  refine ⟨_, hout, ?_, ?_, ?_, ?_, ?_, ?_⟩
  · have := pngFullChunk_length m
    simp only [List.length_append, List.length_take, List.length_drop]
    omega
  · exact take_append_of_length htl
  · have : input.take 33 ++ (pngFullChunk m ++ input.drop 33) =
        (input.take 33 ++ pngFullChunk m) ++ input.drop 33 := by
      simp [List.append_assoc]
    rw [this]
    refine drop_append_of_length ?_
    simp [htl]
  · rw [drop_append_of_length htl]
    exact take_append_of_length rfl
  · rw [drop_append_of_length htl]
    have : pngFullChunk m ++ input.drop 33 =
        u32be (pngChunkData m).length ++
          (pngTypeBytes ++ pngChunkData m ++ u32be (pngCrc m) ++ input.drop 33) := by
      simp [pngFullChunk, List.append_assoc]
    rw [this, take_append_of_length (length_u32be _)]
    exact readBE_u32be hfit
  · rw [drop_append_of_length htl]
    have : pngFullChunk m ++ input.drop 33 =
        (u32be (pngChunkData m).length ++ pngTypeBytes ++ pngChunkData m) ++
          (u32be (pngCrc m) ++ input.drop 33) := by
      simp [pngFullChunk, List.append_assoc]
    rw [this, drop_append_of_length (by simp [pngTypeBytes_length, u32be]; omega),
      take_append_of_length (length_u32be _)]
    exact readBE_u32be (crc32_lt _)

set_option maxRecDepth 100000 in
/-- C1 witness: the amended PNG layout theorem instantiated at a
33-byte input starting `0x89 0x50` and at `sampleMetadata`. -/
theorem png_itxt_chunk_layout_witness :
    (0x89 :: 0x50 :: List.replicate 31 0).get? 0 = some 0x89 ∧
    (0x89 :: 0x50 :: List.replicate 31 0).get? 1 = some 0x50 ∧
    33 ≤ (0x89 :: 0x50 :: List.replicate 31 0).length ∧
    (pngChunkData sampleMetadata).length < 2 ^ 32 ∧
    ∃ out, embedMetadataInPng (0x89 :: 0x50 :: List.replicate 31 0) sampleMetadata = some out ∧
      out.length = (0x89 :: 0x50 :: List.replicate 31 0).length +
        (4 + 4 + (pngChunkData sampleMetadata).length + 4) ∧
      out.take 33 = (0x89 :: 0x50 :: List.replicate 31 0).take 33 ∧
      out.drop (33 + (pngFullChunk sampleMetadata).length) =
        (0x89 :: 0x50 :: List.replicate 31 0).drop 33 ∧
      (out.drop 33).take (pngFullChunk sampleMetadata).length = pngFullChunk sampleMetadata ∧
      readBE ((out.drop 33).take 4) = (pngChunkData sampleMetadata).length ∧
      readBE (((out.drop 33).drop (4 + 4 + (pngChunkData sampleMetadata).length)).take 4) =
        crc32 (pngTypeBytes ++ pngChunkData sampleMetadata) :=
  ⟨rfl, rfl, by decide, by decide,
    png_itxt_chunk_layout _ sampleMetadata rfl rfl (by decide) (by decide)⟩

/-- C1 counterexample: the input `[0x89, 0x50]` satisfies the claim's
signature premise, yet the injector produces no buffer at all (the
splice at fixed offset 33 overflows, modelled as `none`), so the
claimed length equation has no witness. -/
theorem png_short_input_returns_no_buffer :
    ¬ ∃ out, embedMetadataInPng [0x89, 0x50] sampleMetadata = some out ∧
      out.length = 2 + (4 + 4 + (pngChunkData sampleMetadata).length + 4) := by
  rintro ⟨out, hout, -⟩
  rw [show embedMetadataInPng [0x89, 0x50] sampleMetadata = none from rfl] at hout
  exact Option.noConfusion hout

/-- C5 (code bug): on the 3-byte input `0x89 0x50 0x4E` — a truncated
buffer passing the PNG signature check — the PNG injector neither
resolves with the modified buffer nor falls back to the original bytes:
`TypedArray.set` throws a `RangeError` inside the unguarded
`FileReader.onload` handler and the promise never settles (`none`),
contradicting the never-throw / pass-through policy that the JPEG, SVG
and EPS injectors implement. -/
theorem png_truncated_input_never_settles :
    embedMetadataInPng [0x89, 0x50, 0x4E] sampleMetadata = none := rfl

/-! ## JPEG injector: the XMP APP1 stage of `embedMetadataInJpeg`

The source function first embeds EXIF via the external `piexifjs`
library (steps 1–2) and re-decodes the result to raw bytes; the
XMP-injection stage (steps 3–5) below is a pure function of those
EXIF-bearing bytes and the metadata record. -/

/-- `TextEncoder.encode("http://ns.adobe.com/xap/1.0/\x00")`: the XMP
APP1 namespace header plus NUL terminator. -/
def xmpHeaderBytes : List Nat := utf8Encode "http://ns.adobe.com/xap/1.0/\x00"

/-- The UTF-8 bytes of the JPEG XMP packet. -/
def jpegXmpBytes (m : StockMetadata) : List Nat :=
  utf8Encode (generateXmpPacket m "image/jpeg")

/-- `payloadLen = headerBytes.length + xmpBytes.length`. -/
def jpegPayloadLen (m : StockMetadata) : Nat :=
  xmpHeaderBytes.length + (jpegXmpBytes m).length

/-- `segmentLen = payloadLen + 2`: the value written to the APP1
length field (covers the length field and payload, not the marker). -/
def jpegSegmentLen (m : StockMetadata) : Nat := jpegPayloadLen m + 2

/-- The constructed APP1 segment: marker `FF E1`, the two big-endian
length bytes `(segmentLen >> 8) & 0xFF` and `segmentLen & 0xFF`, the
namespace header, then the XMP payload. -/
def jpegApp1Segment (m : StockMetadata) : List Nat :=
  [0xFF, 0xE1] ++ [jpegSegmentLen m / 2 ^ 8 % 256, jpegSegmentLen m % 256] ++
    xmpHeaderBytes ++ jpegXmpBytes m

/-- Step 5 of `embedMetadataInJpeg`: if the EXIF-bearing bytes begin
with the SOI marker `FF D8`, splice the APP1 segment at byte offset 2;
otherwise resolve with the EXIF-only bytes unchanged. -/
def embedMetadataInJpeg (fileBytes : List Nat) (m : StockMetadata) : List Nat :=
  if fileBytes.get? 0 = some 0xFF ∧ fileBytes.get? 1 = some 0xD8 then
    fileBytes.take 2 ++ jpegApp1Segment m ++ fileBytes.drop 2
  else
    fileBytes

theorem jpegApp1Segment_cons (m : StockMetadata) :
    jpegApp1Segment m =
      0xFF :: 0xE1 :: (jpegSegmentLen m / 2 ^ 8 % 256) :: (jpegSegmentLen m % 256) ::
        (xmpHeaderBytes ++ jpegXmpBytes m) := by
  simp [jpegApp1Segment]

theorem readBE_two (n : Nat) : readBE [n / 2 ^ 8 % 256, n % 256] = n % 2 ^ 16 := by
  simp only [readBE, List.foldl]
  omega

theorem jpegApp1Segment_length (m : StockMetadata) :
    (jpegApp1Segment m).length = 2 + 2 + jpegPayloadLen m := by
  simp [jpegApp1Segment_cons, jpegPayloadLen, xmpHeaderBytes]
  omega

theorem jpegApp1_lengthField (m : StockMetadata) (hfit : jpegPayloadLen m + 2 < 2 ^ 16) :
    readBE (((jpegApp1Segment m).drop 2).take 2) = jpegPayloadLen m + 2 := by
  rw [jpegApp1Segment_cons]
  show readBE [jpegSegmentLen m / 2 ^ 8 % 256, jpegSegmentLen m % 256] = jpegPayloadLen m + 2
  rw [readBE_two]
  unfold jpegSegmentLen
  omega

/-- `l.take 2 = [a, b]` when positions 0 and 1 hold `a` and `b`. -/
theorem take_two_of_get? {α : Type} {l : List α} {a b : α}
    (h0 : l.get? 0 = some a) (h1 : l.get? 1 = some b) : l.take 2 = [a, b] := by
  match l, h0, h1 with
  | x :: y :: rest, h0, h1 =>
    simp only [List.get?] at h0 h1
    simp [Option.some_inj.mp h0, Option.some_inj.mp h1]

/-- C2: the constructed XMP APP1 segment is marker `FF E1`, a 2-byte
big-endian length equal to `2 + payloadLen` (counting the length field
and payload, not the marker: the whole segment is 2 bytes longer than
the declared length), then the payload (namespace header + NUL + UTF-8
XMP); the segment is spliced at byte offset 2 when the EXIF-bearing
bytes begin `FF D8`, and otherwise the EXIF-only bytes are returned
unchanged. -/
theorem jpeg_xmp_app1_segment_spec (fileBytes : List Nat) (m : StockMetadata)
    (hfit : jpegPayloadLen m + 2 < 2 ^ 16) :
    (jpegApp1Segment m).take 2 = [0xFF, 0xE1] ∧
    readBE (((jpegApp1Segment m).drop 2).take 2) = 2 + jpegPayloadLen m ∧
    (jpegApp1Segment m).drop 4 = xmpHeaderBytes ++ jpegXmpBytes m ∧
    (jpegApp1Segment m).length = 2 + (2 + jpegPayloadLen m) ∧
    (fileBytes.get? 0 = some 0xFF ∧ fileBytes.get? 1 = some 0xD8 →
      embedMetadataInJpeg fileBytes m =
        fileBytes.take 2 ++ jpegApp1Segment m ++ fileBytes.drop 2) ∧
    (¬ (fileBytes.get? 0 = some 0xFF ∧ fileBytes.get? 1 = some 0xD8) →
      embedMetadataInJpeg fileBytes m = fileBytes) := by
  refine ⟨?_, ?_, ?_, ?_, ?_, ?_⟩
  · rw [jpegApp1Segment_cons]
    rfl
  · rw [jpegApp1_lengthField m hfit]
    omega
  · rw [jpegApp1Segment_cons]
    rfl
  · rw [jpegApp1Segment_length]
    omega
  · intro h
    unfold embedMetadataInJpeg
    rw [if_pos h]
  · intro h
    unfold embedMetadataInJpeg
    rw [if_neg h]

set_option maxRecDepth 100000 in
/-- C2 witness: the APP1 segment spec instantiated at the 3-byte input
`FF D8 00` and `sampleMetadata`, with the size side condition
discharged by computation. -/
theorem jpeg_xmp_app1_segment_spec_witness :
    jpegPayloadLen sampleMetadata + 2 < 2 ^ 16 ∧
    ((jpegApp1Segment sampleMetadata).take 2 = [0xFF, 0xE1] ∧
      readBE (((jpegApp1Segment sampleMetadata).drop 2).take 2) =
        2 + jpegPayloadLen sampleMetadata ∧
      (jpegApp1Segment sampleMetadata).drop 4 =
        xmpHeaderBytes ++ jpegXmpBytes sampleMetadata ∧
      (jpegApp1Segment sampleMetadata).length = 2 + (2 + jpegPayloadLen sampleMetadata) ∧
      ([0xFF, 0xD8, 0x00].get? 0 = some 0xFF ∧ [0xFF, 0xD8, 0x00].get? 1 = some 0xD8 →
        embedMetadataInJpeg [0xFF, 0xD8, 0x00] sampleMetadata =
          [0xFF, 0xD8, 0x00].take 2 ++ jpegApp1Segment sampleMetadata ++
            [0xFF, 0xD8, 0x00].drop 2) ∧
      (¬ ([0xFF, 0xD8, 0x00].get? 0 = some 0xFF ∧ [0xFF, 0xD8, 0x00].get? 1 = some 0xD8) →
        embedMetadataInJpeg [0xFF, 0xD8, 0x00] sampleMetadata = [0xFF, 0xD8, 0x00])) :=
  ⟨by decide, jpeg_xmp_app1_segment_spec [0xFF, 0xD8, 0x00] sampleMetadata (by decide)⟩

set_option maxRecDepth 100000 in
/-- C3 counterexample: at the EXIF-bearing bytes `FF D8` and
`sampleMetadata`, the 2-byte big-endian length declared at offsets 4–5
of the output does not equal the total byte length of the APP1 segment
(marker through payload): the code writes `payloadLen + 2`, which is
the segment length minus the two marker bytes. -/
theorem jpeg_declared_length_not_total_segment_length :
    readBE (((embedMetadataInJpeg [0xFF, 0xD8] sampleMetadata).drop 4).take 2) ≠
      (jpegApp1Segment sampleMetadata).length := by
  have hfit : jpegPayloadLen sampleMetadata + 2 < 2 ^ 16 := by decide
  have h4 : ((embedMetadataInJpeg [0xFF, 0xD8] sampleMetadata).drop 4).take 2 =
      ((jpegApp1Segment sampleMetadata).drop 2).take 2 := by
    simp [embedMetadataInJpeg, jpegApp1Segment_cons]
  rw [h4, jpegApp1_lengthField _ hfit, jpegApp1Segment_length]
  omega

/-- C3 (amended): for EXIF-bearing bytes beginning `FF D8` (and a
packet fitting the 2-byte field), the output begins `FF D8`, bytes 2–3
are the APP1 marker `FF E1`, and the big-endian length declared at
offsets 4–5 equals the APP1 segment's byte length *minus the 2 marker
bytes* (it counts the length field and payload only). -/
theorem jpeg_output_header_and_declared_length (fileBytes : List Nat) (m : StockMetadata)
    (h0 : fileBytes.get? 0 = some 0xFF) (h1 : fileBytes.get? 1 = some 0xD8)
    (hfit : jpegPayloadLen m + 2 < 2 ^ 16) :
    (embedMetadataInJpeg fileBytes m).take 2 = [0xFF, 0xD8] ∧
    ((embedMetadataInJpeg fileBytes m).drop 2).take 2 = [0xFF, 0xE1] ∧
    readBE (((embedMetadataInJpeg fileBytes m).drop 4).take 2) =
      (jpegApp1Segment m).length - 2 := by
  have htake : fileBytes.take 2 = [0xFF, 0xD8] := take_two_of_get? h0 h1
  have hout : embedMetadataInJpeg fileBytes m =
      0xFF :: 0xD8 :: (jpegApp1Segment m ++ fileBytes.drop 2) := by
    unfold embedMetadataInJpeg
    rw [if_pos (And.intro h0 h1), htake]
    simp
  refine ⟨?_, ?_, ?_⟩
  · rw [hout]
    rfl
  · rw [hout, jpegApp1Segment_cons]
    simp
  · have h4 : ((embedMetadataInJpeg fileBytes m).drop 4).take 2 =
        ((jpegApp1Segment m).drop 2).take 2 := by
      rw [hout, jpegApp1Segment_cons]
      simp
    rw [h4, jpegApp1_lengthField m hfit, jpegApp1Segment_length]
    omega

set_option maxRecDepth 100000 in
/-- C3 witness: the amended output-header theorem instantiated at the
3-byte EXIF-bearing input `FF D8 10` and `sampleMetadata`. -/
theorem jpeg_output_header_and_declared_length_witness :
    [0xFF, 0xD8, 0x10].get? 0 = some 0xFF ∧
    [0xFF, 0xD8, 0x10].get? 1 = some 0xD8 ∧
    jpegPayloadLen sampleMetadata + 2 < 2 ^ 16 ∧
    ((embedMetadataInJpeg [0xFF, 0xD8, 0x10] sampleMetadata).take 2 = [0xFF, 0xD8] ∧
      ((embedMetadataInJpeg [0xFF, 0xD8, 0x10] sampleMetadata).drop 2).take 2 =
        [0xFF, 0xE1] ∧
      readBE (((embedMetadataInJpeg [0xFF, 0xD8, 0x10] sampleMetadata).drop 4).take 2) =
        (jpegApp1Segment sampleMetadata).length - 2) :=
  ⟨rfl, rfl, by decide,
    jpeg_output_header_and_declared_length [0xFF, 0xD8, 0x10] sampleMetadata rfl rfl
      (by decide)⟩

/-! ## Video injector (`embedMetadataInVideo`) -/

/-- The UTF-8 bytes of the video XMP packet (`file.type` falls back to
`"video/mp4"` in the caller; the mime type is a parameter here). -/
def videoXmpBytes (m : StockMetadata) (mimeType : String) : List Nat :=
  utf8Encode (generateXmpPacket m mimeType)

/-- Adobe's XMP UUID `BE7ACFCB-97A9-42E8-9C71-999491E3AFAC`. -/
def adobeXmpUuid : List Nat :=
  [0xBE, 0x7A, 0xCF, 0xCB, 0x97, 0xA9, 0x42, 0xE8,
   0x9C, 0x71, 0x99, 0x94, 0x91, 0xE3, 0xAF, 0xAC]

/-- `boxSize = 4 + 4 + 16 + xmpBytes.length`. -/
def videoBoxSize (m : StockMetadata) (mimeType : String) : Nat :=
  4 + 4 + 16 + (videoXmpBytes m mimeType).length

/-- The trailing ISO-BMFF box: big-endian size, type `"uuid"`, the
16-byte Adobe XMP extended type, then the XMP bytes. -/
def videoUuidBox (m : StockMetadata) (mimeType : String) : List Nat :=
  u32be (videoBoxSize m mimeType) ++ utf8Encode "uuid" ++ adobeXmpUuid ++
    videoXmpBytes m mimeType

/-- `embedMetadataInVideo`: `new Blob([file, box])` — the original
bytes followed by the uuid box. -/
def embedMetadataInVideo (input : List Nat) (mimeType : String) (m : StockMetadata) :
    List Nat :=
  input ++ videoUuidBox m mimeType

theorem length_uuidTypeBytes : (utf8Encode "uuid").length = 4 := rfl

theorem videoUuidBox_length (m : StockMetadata) (mimeType : String) :
    (videoUuidBox m mimeType).length = videoBoxSize m mimeType := by
  simp [videoUuidBox, videoBoxSize, u32be, adobeXmpUuid, length_uuidTypeBytes]
  omega

/-- C6: the video injector returns the input bytes followed by one
appended `uuid` box; the box's 4-byte big-endian size field equals the
box's own total byte length `4 + 4 + 16 + xmpLen`, its type bytes are
`"uuid"`, its extended type is the fixed Adobe XMP UUID, its tail is
the UTF-8 XMP bytes; output size = input size + box size and the
original bytes are untouched. -/
theorem video_trailing_uuid_box_layout (input : List Nat) (mimeType : String)
    (m : StockMetadata) (hfit : videoBoxSize m mimeType < 2 ^ 32) :
    embedMetadataInVideo input mimeType m = input ++ videoUuidBox m mimeType ∧
    (videoUuidBox m mimeType).length = 4 + 4 + 16 + (videoXmpBytes m mimeType).length ∧
    readBE ((videoUuidBox m mimeType).take 4) = (videoUuidBox m mimeType).length ∧
    ((videoUuidBox m mimeType).drop 4).take 4 = utf8Encode "uuid" ∧
    ((videoUuidBox m mimeType).drop 8).take 16 = adobeXmpUuid ∧
    (videoUuidBox m mimeType).drop 24 = videoXmpBytes m mimeType ∧
    (embedMetadataInVideo input mimeType m).length =
      input.length + (videoUuidBox m mimeType).length ∧
    (embedMetadataInVideo input mimeType m).take input.length = input := by
  refine ⟨rfl, ?_, ?_, ?_, ?_, ?_, ?_, ?_⟩
  · rw [videoUuidBox_length]
    rfl
  · have hbox : videoUuidBox m mimeType =
        u32be (videoBoxSize m mimeType) ++
          (utf8Encode "uuid" ++ adobeXmpUuid ++ videoXmpBytes m mimeType) := by
      simp [videoUuidBox, List.append_assoc]
    rw [videoUuidBox_length, hbox, take_append_of_length (length_u32be _)]
    exact readBE_u32be hfit
  · have hbox : videoUuidBox m mimeType =
        u32be (videoBoxSize m mimeType) ++
          (utf8Encode "uuid" ++ (adobeXmpUuid ++ videoXmpBytes m mimeType)) := by
      simp [videoUuidBox, List.append_assoc]
    rw [hbox, drop_append_of_length (length_u32be _)]
    exact take_append_of_length rfl
  · have hbox : videoUuidBox m mimeType =
        (u32be (videoBoxSize m mimeType) ++ utf8Encode "uuid") ++
          (adobeXmpUuid ++ videoXmpBytes m mimeType) := by
      simp [videoUuidBox, List.append_assoc]
    rw [hbox, drop_append_of_length (by rfl)]
    exact take_append_of_length rfl
  · have hbox : videoUuidBox m mimeType =
        (u32be (videoBoxSize m mimeType) ++ utf8Encode "uuid" ++ adobeXmpUuid) ++
          videoXmpBytes m mimeType := by
      simp [videoUuidBox, List.append_assoc]
    rw [hbox, drop_append_of_length (by rfl)]
  · simp [embedMetadataInVideo]
  · exact take_append_of_length rfl

set_option maxRecDepth 100000 in
/-- C6 witness: the uuid-box layout theorem at the 1-byte input `00`,
mime type `"video/mp4"` and `sampleMetadata`. -/
theorem video_trailing_uuid_box_layout_witness :
    videoBoxSize sampleMetadata "video/mp4" < 2 ^ 32 ∧
    (embedMetadataInVideo [0x00] "video/mp4" sampleMetadata =
        [0x00] ++ videoUuidBox sampleMetadata "video/mp4" ∧
      (videoUuidBox sampleMetadata "video/mp4").length =
        4 + 4 + 16 + (videoXmpBytes sampleMetadata "video/mp4").length ∧
      readBE ((videoUuidBox sampleMetadata "video/mp4").take 4) =
        (videoUuidBox sampleMetadata "video/mp4").length ∧
      ((videoUuidBox sampleMetadata "video/mp4").drop 4).take 4 = utf8Encode "uuid" ∧
      ((videoUuidBox sampleMetadata "video/mp4").drop 8).take 16 = adobeXmpUuid ∧
      (videoUuidBox sampleMetadata "video/mp4").drop 24 =
        videoXmpBytes sampleMetadata "video/mp4" ∧
      (embedMetadataInVideo [0x00] "video/mp4" sampleMetadata).length =
        [0x00].length + (videoUuidBox sampleMetadata "video/mp4").length ∧
      (embedMetadataInVideo [0x00] "video/mp4" sampleMetadata).take [0x00].length =
        [0x00]) :=
  ⟨by decide,
    video_trailing_uuid_box_layout [0x00] "video/mp4" sampleMetadata (by decide)⟩

/-! ## Image preprocessing branch of `fileToBase64` -/

/-- `SAFETY_THRESHOLD_BYTES = 9 * 1024 * 1024` (the 9 MB limit). -/
def SAFETY_THRESHOLD_BYTES : Nat := 9 * 1024 * 1024

/-- Outcome of the image path of `fileToBase64`: either the raw base64
enters `smartCompressImage` (canvas decode/re-encode, external to this
model), or the original base64 string is resolved unchanged. -/
inductive ImagePathResult where
  | smartCompressed : ImagePathResult
  | originalForwarded : String → ImagePathResult
deriving DecidableEq

/-- The branch `if (file.size > SAFETY_THRESHOLD_BYTES)` of
`fileToBase64`'s image path. -/
def fileToBase64ImageBranch (fileSize : Nat) (rawBase64 : String) : ImagePathResult :=
  if SAFETY_THRESHOLD_BYTES < fileSize then ImagePathResult.smartCompressed
  else ImagePathResult.originalForwarded rawBase64

/-- C8: a file of exactly `9*1024*1024 + 1` bytes takes the
compression branch, while a file of exactly `9*1024*1024` bytes does
not — its original base64 is forwarded unmodified. -/
theorem image_compression_threshold_boundary (raw : String) :
    fileToBase64ImageBranch (9 * 1024 * 1024 + 1) raw = ImagePathResult.smartCompressed ∧
    fileToBase64ImageBranch (9 * 1024 * 1024) raw =
      ImagePathResult.originalForwarded raw := by
  constructor <;> norm_num [fileToBase64ImageBranch, SAFETY_THRESHOLD_BYTES]

/-! ## Non-idempotence of the XMP text escape -/

theorem mem_flatten_map {α β : Type} {f : α → List β} {l : List α} {a : α} {b : β}
    (ha : a ∈ l) (hb : b ∈ f a) : b ∈ (l.map f).flatten := by
  rw [List.mem_flatten]
  exact ⟨f a, List.mem_map_of_mem f ha, hb⟩

theorem length_flatten_map_ge {α β : Type} (f : α → List β) (l : List α)
    (h1 : ∀ a, 1 ≤ (f a).length) : l.length ≤ ((l.map f).flatten).length := by
  induction l with
  | nil => simp
  | cons x xs ih =>
    simp only [List.map_cons, List.flatten_cons, List.length_append, List.length_cons]
    have := h1 x
    omega

theorem escAmp_length_ge (c : Char) : 1 ≤ (escAmp c).length := by
  unfold escAmp
  split <;> simp

theorem escLt_length_ge (c : Char) : 1 ≤ (escLt c).length := by
  unfold escLt
  split <;> simp

theorem escGt_length_ge (c : Char) : 1 ≤ (escGt c).length := by
  unfold escGt
  split <;> simp

theorem length_escAmp_flatten_gt {l : List Char} (h : '&' ∈ l) :
    l.length < ((l.map escAmp).flatten).length := by
  induction l with
  | nil => cases h
  | cons x xs ih =>
    simp only [List.map_cons, List.flatten_cons, List.length_append, List.length_cons]
    rcases List.mem_cons.mp h with heq | hmem
    · have h5 : (escAmp x).length = 5 := by
        rw [← heq]
        rfl
      have hge := length_flatten_map_ge escAmp xs escAmp_length_ge
      omega
    · have hlt := ih hmem
      have hge := escAmp_length_ge x
      omega

/-- Every string containing `&`, `<` or `>` sanitizes to one
containing `&` (each escape expansion starts with an ampersand). -/
theorem amp_mem_sanitizeChars {s : List Char}
    (h : ∃ c ∈ s, c = '&' ∨ c = '<' ∨ c = '>') : '&' ∈ sanitizeChars s := by
  obtain ⟨c, hc, hcase⟩ := h
  unfold sanitizeChars
  rcases hcase with rfl | rfl | rfl
  · exact mem_flatten_map
      (mem_flatten_map (mem_flatten_map hc (show ('&' : Char) ∈ escAmp '&' by decide))
        (show ('&' : Char) ∈ escLt '&' by decide))
      (show ('&' : Char) ∈ escGt '&' by decide)
  · exact mem_flatten_map
      (mem_flatten_map (mem_flatten_map hc (show ('<' : Char) ∈ escAmp '<' by decide))
        (show ('&' : Char) ∈ escLt '<' by decide))
      (show ('&' : Char) ∈ escGt '&' by decide)
  · exact mem_flatten_map
      (mem_flatten_map (mem_flatten_map hc (show ('>' : Char) ∈ escAmp '>' by decide))
        (show ('>' : Char) ∈ escLt '>' by decide))
      (show ('&' : Char) ∈ escGt '>' by decide)

theorem sanitizeChars_length_gt {t : List Char} (h : '&' ∈ t) :
    t.length < (sanitizeChars t).length := by
  unfold sanitizeChars
  have h1 := length_escAmp_flatten_gt h
  have h2 := length_flatten_map_ge escLt ((t.map escAmp).flatten) escLt_length_ge
  have h3 := length_flatten_map_ge escGt
    ((((t.map escAmp).flatten).map escLt).flatten) escGt_length_ge
  omega

theorem string_mk_data (l : List Char) : (String.mk l).data = l := rfl

/-- C10: the XMP escape used by `generateXmpPacket` is not idempotent:
for every string containing `&`, `<` or `>`, sanitizing twice differs
from sanitizing once (each first-pass escape re-escapes its own
ampersand, e.g. `<` ↦ `&lt;` ↦ `&amp;lt;`). -/
theorem sanitize_not_idempotent (s : String)
    (h : ∃ c ∈ s.data, c = '&' ∨ c = '<' ∨ c = '>') :
    sanitize (sanitize s) ≠ sanitize s := by
  intro heq
  have hamp : '&' ∈ sanitizeChars s.data := amp_mem_sanitizeChars h
  have hlt : (sanitizeChars s.data).length <
      (sanitizeChars (sanitizeChars s.data)).length := sanitizeChars_length_gt hamp
  have hd := congrArg String.data heq
  simp only [sanitize, string_mk_data] at hd
  rw [hd] at hlt
  exact Nat.lt_irrefl _ hlt

/-- C10 witness: the non-idempotence theorem at the string `"<"`. -/
theorem sanitize_not_idempotent_witness :
    (∃ c ∈ ("<" : String).data, c = '&' ∨ c = '<' ∨ c = '>') ∧
    sanitize (sanitize "<") ≠ sanitize "<" :=
  ⟨by decide, sanitize_not_idempotent "<" (by decide)⟩

/-! ## EPS injector (`embedMetadataInEps`) -/

/-- First index `k ∈ [i, i + fuel)` with `p k = true`, scanning
upward; the shared shape of the source's two linear scans. -/
def scanFirst (p : Nat → Bool) : Nat → Nat → Option Nat
  | _, 0 => none
  | i, fuel + 1 => if p i then some i else scanFirst p (i + 1) fuel

theorem scanFirst_some_of (p : Nat → Bool) {i fuel j : Nat}
    (h1 : i ≤ j) (h2 : j < i + fuel) (h3 : p j = true)
    (h4 : ∀ k, i ≤ k → k < j → p k = false) : scanFirst p i fuel = some j := by
  induction fuel generalizing i with
  | zero => omega
  | succ fuel ih =>
    rw [scanFirst]
    rcases Nat.eq_or_lt_of_le h1 with rfl | hlt
    · rw [if_pos h3]
    · rw [if_neg (by simp [h4 i (Nat.le_refl i) hlt])]
      exact ih (by omega) (by omega) (fun k hk1 hk2 => h4 k (by omega) hk2)

theorem scanFirst_none_of (p : Nat → Bool) {i fuel : Nat}
    (h : ∀ k, i ≤ k → k < i + fuel → p k = false) : scanFirst p i fuel = none := by
  induction fuel generalizing i with
  | zero => rfl
  | succ fuel ih =>
    rw [scanFirst]
    rw [if_neg (by simp [h i (Nat.le_refl i) (by omega)])]
    exact ih (fun k hk1 hk2 => h k (by omega) (by omega))

/-- The inner matching loop of `findBinarySequence`: does `pat` occur
in `hay` starting at index `i`? -/
def seqMatch {α : Type} [DecidableEq α] (hay pat : List α) (i : Nat) : Bool :=
  decide ((hay.drop i).take pat.length = pat)

theorem seqMatch_bound {α : Type} [DecidableEq α] {hay pat : List α} {i : Nat}
    (hp : 0 < pat.length) (h : seqMatch hay pat i = true) :
    i + pat.length ≤ hay.length := by
  unfold seqMatch at h
  have heq := of_decide_eq_true h
  have hlen := congrArg List.length heq
  simp only [List.length_take, List.length_drop] at hlen
  omega

/-- `findBinarySequence(haystack, pattern, limit?)`: first index of the
byte pattern, scanning `0 ≤ i ≤ max - pattern.length` where `max` is
the haystack length capped by the optional limit. -/
def findBinarySequence (hay pat : List Nat) (limit : Option Nat) : Option Nat :=
  match limit with
  | some l =>
    if pat.length ≤ min hay.length l then
      scanFirst (seqMatch hay pat) 0 (min hay.length l - pat.length + 1)
    else none
  | none =>
    if pat.length ≤ hay.length then
      scanFirst (seqMatch hay pat) 0 (hay.length - pat.length + 1)
    else none

theorem findBinarySequence_none {hay pat : List Nat} (lim : Option Nat)
    (h : ∀ j, seqMatch hay pat j = false) : findBinarySequence hay pat lim = none := by
  cases lim with
  | none =>
    simp only [findBinarySequence]
    split
    · exact scanFirst_none_of _ (fun k _ _ => h k)
    · rfl
  | some l =>
    simp only [findBinarySequence]
    split
    · exact scanFirst_none_of _ (fun k _ _ => h k)
    · rfl

theorem findBinarySequence_nolimit_some {hay pat : List Nat} {i : Nat}
    (hp : 0 < pat.length) (hm : seqMatch hay pat i = true)
    (hmin : ∀ j, j < i → seqMatch hay pat j = false) :
    findBinarySequence hay pat none = some i := by
  have hb := seqMatch_bound hp hm
  simp only [findBinarySequence]
  rw [if_pos (by omega)]
  exact scanFirst_some_of _ (Nat.zero_le _) (by omega) hm (fun k _ hk => hmin k hk)

theorem findBinarySequence_limit_some {hay pat : List Nat} {l i : Nat}
    (hfit : i + pat.length ≤ min hay.length l)
    (hm : seqMatch hay pat i = true)
    (hmin : ∀ j, j < i → seqMatch hay pat j = false) :
    findBinarySequence hay pat (some l) = some i := by
  simp only [findBinarySequence]
  rw [if_pos (by omega)]
  exact scanFirst_some_of _ (Nat.zero_le _) (by omega) hm (fun k _ hk => hmin k hk)

theorem findBinarySequence_limit_none {hay pat : List Nat} {l : Nat}
    (h : ∀ j, j + pat.length ≤ min hay.length l → seqMatch hay pat j = false) :
    findBinarySequence hay pat (some l) = none := by
  simp only [findBinarySequence]
  split
  · rename_i hc
    apply scanFirst_none_of
    intro k hk1 hk2
    exact h k (by omega)
  · rfl

/-- `"%%EndComments"` as the byte pattern built by `charCodeAt`. -/
def epsEndCommentsPat : List Nat := strCodeUnits "%%EndComments"

/-- `"%!PS-Adobe"` as the byte pattern built by `charCodeAt`. -/
def epsHeaderPat : List Nat := strCodeUnits "%!PS-Adobe"

/-- The newline scan's test: `data[k] === 0x0A || data[k] === 0x0D`. -/
def epsTermAt (data : List Nat) (k : Nat) : Bool :=
  decide (data.getD k 0 = 0x0A ∨ data.getD k 0 = 0x0D)

/-- Insertion-point selection of `embedMetadataInEps`:
`%%EndComments` (+ 13) first; else `%!PS-Adobe` within the first 1024
bytes, then a 256-byte-window scan for the next line terminator
(inserting after `\r\n` or the single terminator, or after the 10-byte
token when none is found); else offset 0. -/
def epsInsertIndex (data : List Nat) : Nat :=
  match findBinarySequence data epsEndCommentsPat none with
  | some i => i + 13
  | none =>
    match findBinarySequence data epsHeaderPat (some 1024) with
    | some h =>
      match scanFirst (epsTermAt data) h (min data.length (h + 256) - h) with
      | some k =>
        if data.getD k 0 = 0x0D ∧ data.get? (k + 1) = some 0x0A then k + 2 else k + 1
      | none => h + 10
    | none => 0

/-- The EPS comment packet: the XMP packet with every line prefixed
`"% "`, wrapped between `%begin_xml_packet` / `%end_xml_packet` lines. -/
def epsPacketStr (m : StockMetadata) : String :=
  "\n%begin_xml_packet: w begin=\"﻿\" id=\"W5M0MpCehiHzreSzNTczkc9d\"\n" ++
    String.intercalate "\n"
      (((generateXmpPacket m "application/postscript").splitOn "\n").map
        (fun line => "% " ++ line)) ++
    "\n%end_xml_packet\n"

/-- The packet bytes (`TextEncoder.encode`). -/
def epsPacketBytes (m : StockMetadata) : List Nat := utf8Encode (epsPacketStr m)

/-- `embedMetadataInEps`: `Blob([data.slice(0, insertIndex),
packetBytes, data.slice(insertIndex)])`. -/
def embedMetadataInEps (data : List Nat) (m : StockMetadata) : List Nat :=
  data.take (epsInsertIndex data) ++ epsPacketBytes m ++ data.drop (epsInsertIndex data)

/-- C4: the EPS injector splices its packet at `epsInsertIndex`, and
that offset is characterised by the priority order: first occurrence of
`%%EndComments` plus 13; else, with `%!PS-Adobe` first occurring at `h`
fully inside the first 1024 bytes, the first line terminator `k` in the
256-byte window gives `k + 2` for CR-LF and `k + 1` otherwise, and no
terminator gives `h + 10`; else — no `%%EndComments` anywhere and no
`%!PS-Adobe` within the 1024-byte search window (even if the token
occurs later in the file) — offset 0. -/
theorem eps_insertion_point_spec (data : List Nat) (m : StockMetadata) :
    (embedMetadataInEps data m =
      data.take (epsInsertIndex data) ++ epsPacketBytes m ++
        data.drop (epsInsertIndex data)) ∧
    (∀ i, seqMatch data epsEndCommentsPat i = true →
      (∀ j, j < i → seqMatch data epsEndCommentsPat j = false) →
      epsInsertIndex data = i + 13) ∧
    (∀ h k, (∀ j, seqMatch data epsEndCommentsPat j = false) →
      h + 10 ≤ min data.length 1024 →
      seqMatch data epsHeaderPat h = true →
      (∀ j, j < h → seqMatch data epsHeaderPat j = false) →
      h ≤ k → k < min data.length (h + 256) →
      epsTermAt data k = true →
      (∀ k2, h ≤ k2 → k2 < k → epsTermAt data k2 = false) →
      epsInsertIndex data =
        if data.getD k 0 = 0x0D ∧ data.get? (k + 1) = some 0x0A then k + 2 else k + 1) ∧
    (∀ h, (∀ j, seqMatch data epsEndCommentsPat j = false) →
      h + 10 ≤ min data.length 1024 →
      seqMatch data epsHeaderPat h = true →
      (∀ j, j < h → seqMatch data epsHeaderPat j = false) →
      (∀ k, h ≤ k → k < min data.length (h + 256) → epsTermAt data k = false) →
      epsInsertIndex data = h + 10) ∧
    ((∀ j, seqMatch data epsEndCommentsPat j = false) →
      (∀ j, j + 10 ≤ min data.length 1024 → seqMatch data epsHeaderPat j = false) →
      epsInsertIndex data = 0) := by
  refine ⟨rfl, ?_, ?_, ?_, ?_⟩
  · intro i hm hmin
    unfold epsInsertIndex
    rw [findBinarySequence_nolimit_some (by decide) hm hmin]
  · intro h k hnoEC hfit hm hmin hk1 hk2 hterm htermmin
    have e1 := findBinarySequence_none none hnoEC
    have e2 := @findBinarySequence_limit_some data epsHeaderPat 1024 h
      (by rw [show epsHeaderPat.length = 10 from rfl]; omega) hm hmin
    have e3 := @scanFirst_some_of (epsTermAt data) h (min data.length (h + 256) - h) k
      hk1 (by omega) hterm (fun k2 hk3 hk4 => htermmin k2 hk3 hk4)
    unfold epsInsertIndex
    simp only [e1, e2, e3]
  · intro h hnoEC hfit hm hmin hnoterm
    have e1 := findBinarySequence_none none hnoEC
    have e2 := @findBinarySequence_limit_some data epsHeaderPat 1024 h
      (by rw [show epsHeaderPat.length = 10 from rfl]; omega) hm hmin
    have e3 := @scanFirst_none_of (epsTermAt data) h (min data.length (h + 256) - h)
      (fun k hk1 hk2 => hnoterm k hk1 (by omega))
    unfold epsInsertIndex
    simp only [e1, e2, e3]
  · intro hnoEC hnoPS
    unfold epsInsertIndex
    rw [findBinarySequence_none none hnoEC,
      findBinarySequence_limit_none
        (fun j hj => hnoPS j (by rw [show epsHeaderPat.length = 10 from rfl] at hj; exact hj))]

/-- C4 witness: the insertion-point theorem at the concrete input
`"ab%%EndComments"` (first occurrence at index 2, so the packet is
spliced at offset 15) and `sampleMetadata`. -/
theorem eps_insertion_point_spec_witness :
    embedMetadataInEps (strCodeUnits "ab%%EndComments") sampleMetadata =
      (strCodeUnits "ab%%EndComments").take (2 + 13) ++ epsPacketBytes sampleMetadata ++
        (strCodeUnits "ab%%EndComments").drop (2 + 13) := by
  rw [(eps_insertion_point_spec (strCodeUnits "ab%%EndComments") sampleMetadata).1,
    (eps_insertion_point_spec (strCodeUnits "ab%%EndComments") sampleMetadata).2.1 2
      (by decide) (by decide)]

/-! ## SVG injector (`embedMetadataInSvg`) -/

theorem seqMatch_intro {α : Type} [DecidableEq α] {hay pat : List α} {i : Nat}
    (h : (hay.drop i).take pat.length = pat) : seqMatch hay pat i = true := by
  unfold seqMatch
  exact decide_eq_true h

theorem drop_eq_pat_append_of_seqMatch {α : Type} [DecidableEq α] {hay pat : List α}
    {i : Nat} (h : seqMatch hay pat i = true) :
    hay.drop i = pat ++ hay.drop (i + pat.length) := by
  unfold seqMatch at h
  have heq := of_decide_eq_true h
  calc hay.drop i
      = (hay.drop i).take pat.length ++ (hay.drop i).drop pat.length :=
        (List.take_append_drop _ _).symm
    _ = pat ++ hay.drop (i + pat.length) := by
        rw [heq, List.drop_drop, Nat.add_comm]

theorem scanFirst_some_sound {p : Nat → Bool} {i fuel j : Nat}
    (h : scanFirst p i fuel = some j) : p j = true := by
  induction fuel generalizing i with
  | zero => simp [scanFirst] at h
  | succ fuel ih =>
    rw [scanFirst] at h
    by_cases hp : p i
    · rw [if_pos hp] at h
      cases h
      exact hp
    · rw [if_neg hp] at h
      exact ih h

/-- The first occurrence index used by the JS string primitives
(`includes` / single-pattern `replace`). -/
def firstOcc {α : Type} [DecidableEq α] (hay pat : List α) : Option Nat :=
  scanFirst (seqMatch hay pat) 0 (hay.length + 1)

/-- Model of JS `String.prototype.includes`. -/
def containsSeq {α : Type} [DecidableEq α] (hay pat : List α) : Bool :=
  (firstOcc hay pat).isSome

/-- Model of JS `String.prototype.replace` with a plain string pattern:
replace the first occurrence only (the text unchanged when absent). -/
def replaceFirst {α : Type} [DecidableEq α] (hay pat repl : List α) : List α :=
  match firstOcc hay pat with
  | some i => hay.take i ++ repl ++ hay.drop (i + pat.length)
  | none => hay

theorem containsSeq_of_seqMatch {α : Type} [DecidableEq α] {hay pat : List α} {i : Nat}
    (h : seqMatch hay pat i = true) : containsSeq hay pat = true := by
  have hex : ∃ j, seqMatch hay pat j = true := ⟨i, h⟩
  have h0 : seqMatch hay pat (Nat.find hex) = true := Nat.find_spec hex
  have hmin : ∀ j, j < Nat.find hex → seqMatch hay pat j = false := by
    intro j hj
    have := Nat.find_min hex hj
    simpa using this
  have hb : Nat.find hex < hay.length + 1 := by
    rcases Nat.eq_zero_or_pos pat.length with hz | hpos
    · have hzero : seqMatch hay pat 0 = true := by
        unfold seqMatch
        rw [List.length_eq_zero.mp hz]
        simp
      have := Nat.find_min' hex hzero
      omega
    · have := seqMatch_bound hpos h0
      omega
  unfold containsSeq firstOcc
  rw [scanFirst_some_of (seqMatch hay pat) (Nat.zero_le _) (by omega) h0
    (fun k _ hk => hmin k hk)]
  rfl

theorem exists_seqMatch_of_containsSeq {α : Type} [DecidableEq α] {hay pat : List α}
    (h : containsSeq hay pat = true) : ∃ i, seqMatch hay pat i = true := by
  unfold containsSeq firstOcc at h
  cases hs : scanFirst (seqMatch hay pat) 0 (hay.length + 1) with
  | none => rw [hs] at h; simp at h
  | some j => exact ⟨j, scanFirst_some_sound hs⟩

/-- `"<metadata>"` as characters. -/
def metaOpenTag : List Char := "<metadata>".data

/-- `"</metadata>"` as characters. -/
def metaCloseTag : List Char := "</metadata>".data

/-- `"</svg>"` as characters. -/
def svgCloseTag : List Char := "</svg>".data

/-- The inserted element `<metadata>${xmp}</metadata>`. -/
def svgMetaElement (m : StockMetadata) : List Char :=
  metaOpenTag ++ (generateXmpPacket m "image/svg+xml").data ++ metaCloseTag

/-- Model of `text.replace(/<metadata>(.*?)<\/metadata>/s,
`<metadata>${xmp}</metadata>`)`: the lazy regex matches starting at the
first `<metadata>` occurrence, pairing it with the nearest following
`</metadata>`; with no following close tag the regex does not match
and the text is unchanged. -/
def svgReplaceMetadataElement (text xmp : List Char) : List Char :=
  match firstOcc text metaOpenTag with
  | some p =>
    match scanFirst (seqMatch text metaCloseTag) (p + 10) (text.length + 1) with
    | some q => text.take p ++ (metaOpenTag ++ xmp ++ metaCloseTag) ++ text.drop (q + 11)
    | none => text
  | none => text

/-- `embedMetadataInSvg` on the decoded text: replace an existing
`<metadata>...</metadata>` element; else insert a new element
immediately before `</svg>`; else append it at the end of the
document after a newline. -/
def embedMetadataInSvg (text : List Char) (m : StockMetadata) : List Char :=
  if containsSeq text metaOpenTag then
    svgReplaceMetadataElement text ((generateXmpPacket m "image/svg+xml").data)
  else if containsSeq text svgCloseTag then
    replaceFirst text svgCloseTag (svgMetaElement m ++ svgCloseTag)
  else
    text ++ '\n' :: svgMetaElement m

theorem svg_insert_before_close {text : List Char} {m : StockMetadata} {i : Nat}
    (hno : containsSeq text metaOpenTag = false)
    (hm : seqMatch text svgCloseTag i = true)
    (hmin : ∀ j, j < i → seqMatch text svgCloseTag j = false) :
    embedMetadataInSvg text m = text.take i ++ svgMetaElement m ++ text.drop i ∧
    seqMatch (embedMetadataInSvg text m) metaOpenTag i = true ∧
    seqMatch (embedMetadataInSvg text m) svgCloseTag (i + (svgMetaElement m).length) =
      true := by
  have hb := seqMatch_bound (show 0 < svgCloseTag.length by decide) hm
  have hi6 : i + 6 ≤ text.length := by
    rw [show svgCloseTag.length = 6 from rfl] at hb
    exact hb
  have htl : (text.take i).length = i := by
    rw [List.length_take]
    omega
  have hsvgtrue : containsSeq text svgCloseTag = true := containsSeq_of_seqMatch hm
  have hfo : firstOcc text svgCloseTag = some i := by
    unfold firstOcc
    exact scanFirst_some_of _ (Nat.zero_le _) (by omega) hm (fun k _ hk => hmin k hk)
  have hdropi : text.drop i = svgCloseTag ++ text.drop (i + 6) :=
    drop_eq_pat_append_of_seqMatch hm
  have hout : embedMetadataInSvg text m =
      text.take i ++ svgMetaElement m ++ text.drop i := by
    unfold embedMetadataInSvg
    simp only [hno, hsvgtrue, Bool.false_eq_true, if_false, if_true]
    simp only [replaceFirst, hfo]
    rw [show svgCloseTag.length = 6 from rfl, hdropi]
    simp [List.append_assoc]
  refine ⟨hout, ?_, ?_⟩
  · rw [hout]
    apply seqMatch_intro
    have hassoc : text.take i ++ svgMetaElement m ++ text.drop i =
        text.take i ++ (svgMetaElement m ++ text.drop i) := by
      simp [List.append_assoc]
    rw [hassoc, drop_append_of_length htl]
    have hE : svgMetaElement m ++ text.drop i =
        metaOpenTag ++ ((generateXmpPacket m "image/svg+xml").data ++ metaCloseTag ++
          text.drop i) := by
      simp [svgMetaElement, List.append_assoc]
    rw [hE]
    exact take_append_of_length rfl
  · rw [hout]
    apply seqMatch_intro
    have hassoc : text.take i ++ svgMetaElement m ++ text.drop i =
        (text.take i ++ svgMetaElement m) ++ text.drop i := by
      simp [List.append_assoc]
    rw [hassoc, drop_append_of_length (by rw [List.length_append, htl]), hdropi]
    exact take_append_of_length rfl

theorem svg_append_when_no_close {text : List Char} {m : StockMetadata}
    (hno : containsSeq text metaOpenTag = false)
    (hnosvg : containsSeq text svgCloseTag = false) :
    embedMetadataInSvg text m = text ++ '\n' :: svgMetaElement m := by
  unfold embedMetadataInSvg
  simp only [hno, hnosvg, Bool.false_eq_true, if_false]

/-- C7: for SVG text with no existing `<metadata>` tag, the output
contains `<metadata>`; when `</svg>` is present the new element is
spliced immediately before its first occurrence `i` (so `<metadata>`
matches at `i` and `</svg>` still matches right after the element,
strictly later); when `</svg>` is absent the element is appended after
a newline at the end of the document. -/
theorem svg_metadata_before_close (text : List Char) (m : StockMetadata)
    (hno : containsSeq text metaOpenTag = false) :
    containsSeq (embedMetadataInSvg text m) metaOpenTag = true ∧
    (∀ i, seqMatch text svgCloseTag i = true →
      (∀ j, j < i → seqMatch text svgCloseTag j = false) →
      embedMetadataInSvg text m = text.take i ++ svgMetaElement m ++ text.drop i ∧
      seqMatch (embedMetadataInSvg text m) metaOpenTag i = true ∧
      seqMatch (embedMetadataInSvg text m) svgCloseTag (i + (svgMetaElement m).length) =
        true) ∧
    (containsSeq text svgCloseTag = false →
      embedMetadataInSvg text m = text ++ '\n' :: svgMetaElement m) := by
  refine ⟨?_, ?_, fun hnosvg => svg_append_when_no_close hno hnosvg⟩
  · cases hc : containsSeq text svgCloseTag with
    | true =>
      obtain ⟨j, hj⟩ := exists_seqMatch_of_containsSeq hc
      have hex : ∃ k, seqMatch text svgCloseTag k = true := ⟨j, hj⟩
      have h0 : seqMatch text svgCloseTag (Nat.find hex) = true := Nat.find_spec hex
      have hminf : ∀ k, k < Nat.find hex → seqMatch text svgCloseTag k = false := by
        intro k hk
        have := Nat.find_min hex hk
        simpa using this
      exact containsSeq_of_seqMatch (svg_insert_before_close hno h0 hminf).2.1
    | false =>
      have hout := svg_append_when_no_close (m := m) hno hc
      apply containsSeq_of_seqMatch (i := text.length + 1)
      apply seqMatch_intro
      have hassoc : embedMetadataInSvg text m = (text ++ ['\n']) ++ svgMetaElement m := by
        rw [hout]
        simp
      rw [hassoc, drop_append_of_length (by simp)]
      have hE : svgMetaElement m =
          metaOpenTag ++ ((generateXmpPacket m "image/svg+xml").data ++ metaCloseTag) := by
        simp [svgMetaElement, List.append_assoc]
      rw [hE]
      exact take_append_of_length rfl
  · intro i hm hmin
    exact svg_insert_before_close hno hm hmin

/-- C7 witness: the theorem at the concrete document `"<svg></svg>"`
(no `<metadata>`, first `</svg>` at index 5) and `sampleMetadata`. -/
theorem svg_metadata_before_close_witness :
    containsSeq ("<svg></svg>".data) metaOpenTag = false ∧
    containsSeq (embedMetadataInSvg ("<svg></svg>".data) sampleMetadata) metaOpenTag =
      true ∧
    embedMetadataInSvg ("<svg></svg>".data) sampleMetadata =
      ("<svg></svg>".data).take 5 ++ svgMetaElement sampleMetadata ++
        ("<svg></svg>".data).drop 5 :=
  ⟨by decide,
    (svg_metadata_before_close ("<svg></svg>".data) sampleMetadata (by decide)).1,
    ((svg_metadata_before_close ("<svg></svg>".data) sampleMetadata (by decide)).2.1 5
      (by decide) (by decide)).1⟩

/-! ## Storyboard capture timestamps (`videoToStoryboardBase64`)

`timePoints = [duration * 0.1, duration * 0.35, duration * 0.6,
duration * 0.85]` is JavaScript (binary64) arithmetic, so the literals
and products are modelled with an exact round-to-nearest-even binary64
rounding function over ℚ (normal range; the values involved are far
from overflow and subnormals). -/

/-- Base-2 logarithm on naturals with explicit fuel (structural, so
concrete values reduce); 64 bits of fuel covers every value used. -/
def log2fuel : Nat → Nat → Nat
  | 0, _ => 0
  | fuel + 1, n => if n < 2 then 0 else log2fuel fuel (n / 2) + 1

/-- `⌊log₂ n⌋` for `n ≥ 1`. -/
def natLog2 (n : Nat) : Nat := log2fuel 64 n

/-- `2 ^ e` as a rational, for integer `e`. -/
def pow2z (e : ℤ) : ℚ :=
  match e with
  | Int.ofNat n => ((2 ^ n : ℕ) : ℚ)
  | Int.negSucc n => 1 / ((2 ^ (n + 1) : ℕ) : ℚ)

/-- `⌊log₂ q⌋` for a positive rational: the unique `e` with
`2 ^ e ≤ q < 2 ^ (e + 1)`. -/
def ilog2 (q : ℚ) : ℤ :=
  if pow2z ((natLog2 q.num.toNat : ℤ) - natLog2 q.den) ≤ q then
    (natLog2 q.num.toNat : ℤ) - natLog2 q.den
  else
    (natLog2 q.num.toNat : ℤ) - natLog2 q.den - 1

/-- Round a rational to the nearest integer, ties to even. -/
def rneInt (x : ℚ) : ℤ :=
  if x - (x.floor : ℚ) < 1 / 2 then x.floor
  else if 1 / 2 < x - (x.floor : ℚ) then x.floor + 1
  else if x.floor % 2 = 0 then x.floor else x.floor + 1

/-- Round a positive rational to the nearest binary64 value (53
significant bits, round-to-nearest-even), in the normal range. -/
def fl64Pos (q : ℚ) : ℚ :=
  (rneInt (q * pow2z (52 - ilog2 q)) : ℚ) * pow2z (ilog2 q - 52)

/-- Round a rational to the nearest binary64 value. -/
def fl64 (q : ℚ) : ℚ :=
  if q = 0 then 0
  else if 0 < q then fl64Pos q
  else -fl64Pos (-q)

/-- The storyboard capture timestamps:
`[duration * 0.1, duration * 0.35, duration * 0.6, duration * 0.85]`
with every literal and product rounded as binary64. -/
def storyboardTimePoints (duration : ℚ) : List ℚ :=
  [fl64 (duration * fl64 (1 / 10)), fl64 (duration * fl64 (35 / 100)),
   fl64 (duration * fl64 (6 / 10)), fl64 (duration * fl64 (85 / 100))]

/-- C9: for a duration of exactly 10 seconds, the four storyboard
capture timestamps are exactly `[1.0, 3.5, 6.0, 8.5]` seconds, in that
order — the double-precision roundings of `0.1`, `0.35`, `0.6`, `0.85`
and of the products all land on the exact values (`10 * 0.35` is a
round-to-even tie that resolves to `3.5`). -/
theorem storyboard_timepoints_ten_seconds :
    storyboardTimePoints 10 = [1, 7 / 2, 6, 17 / 2] := by
  with_unfolding_all decide

end VisionMeta
